import Mathlib

/-!
Verification development for the moosesky repository: a Bluesky firehose
word-trends pipeline.  The definitions below are a shallow embedding of the
TypeScript sources:

* `src/app/ingest/bluesky-transforms.ts` — stop words, `truncateToInterval`,
  `extractWords`, and the BlueskyPost → WordOccurrence aggregation transform;
* `src/app/apis/trends.ts` — the `/search`, `/top`, `/compare` endpoints of
  the trends API (the ClickHouse queries the handlers build are embedded by
  their standard SQL meaning over an explicit list of rows);
* `src/packages/moosestack-service/app/workflows/firehose.ts` — cursor
  load/save, subscription-URL construction, the batch queue, and the
  WebSocket message handler's cursor update.

JavaScript strings are modelled as `List Char`; machine numbers as `Nat`
(all quantities involved — timestamps, counts, lengths — are non-negative
integers in the source).
-/

namespace Moosesky

/-! ### Character classes (JS regex `\s`, `\w`, digits) -/

/-- The JS regex whitespace class `\s` (ASCII whitespace plus the
Unicode space characters U+00A0, U+1680, U+2000-U+200A, U+2028, U+2029,
U+202F, U+205F, U+3000, U+FEFF). -/
def isWsChar (c : Char) : Bool :=
  c = ' ' || c = '\t' || c = '\n' || c = '\r' || c = '\x0b' || c = '\x0c' ||
  c.toNat = 0xa0 || c.toNat = 0x1680 ||
  (0x2000 ≤ c.toNat && c.toNat ≤ 0x200a) ||
  c.toNat = 0x2028 || c.toNat = 0x2029 || c.toNat = 0x202f ||
  c.toNat = 0x205f || c.toNat = 0x3000 || c.toNat = 0xfeff

/-- The JS regex word class `\w` = `[A-Za-z0-9_]` (code points: a-z 97-122,
A-Z 65-90, 0-9 48-57, _ 95). -/
def isWordCharB (c : Char) : Bool :=
  (97 ≤ c.toNat && c.toNat ≤ 122) || (65 ≤ c.toNat && c.toNat ≤ 90) ||
  (48 ≤ c.toNat && c.toNat ≤ 57) || c = '_'

/-- Decimal digit, the JS regex class `\d` (code points 48-57). -/
def isDigitB (c : Char) : Bool := 48 ≤ c.toNat && c.toNat ≤ 57

/-- ASCII uppercase letter `A`-`Z` (code points 65-90). -/
def isUpperAscii (c : Char) : Bool := 65 ≤ c.toNat && c.toNat ≤ 90

/-- `String.prototype.toLowerCase`, modelled on the ASCII range (the
extractor's later `[^\w\s#]` replacement removes every non-ASCII letter, so
only the ASCII behaviour of `toLowerCase` is observable in the output). -/
def lowerAscii (c : Char) : Char :=
  if isUpperAscii c then Char.ofNat (c.toNat + 32) else c

/-! ### `extractWords` (src/app/ingest/bluesky-transforms.ts:196-214)

Each numbered pipeline step of the source function is one definition.
The two regex-replace steps that consume a variable number of characters
(`text.replace(/https?:\/\/\S+/gi, "")` and `.replace(/@[\w.]+/g, "")`)
are written with explicit fuel for termination; the fuel is the input
length, which the scanners never exceed. -/

/-- Match the regex `https?:\/\/\S+` (case-insensitive) at the head of the
list: literal `http`, optional `s`, literal `://`, then one or more
non-whitespace characters (greedy).  Returns the remainder after the match. -/
def matchUrlAt (cs : List Char) : Option (List Char) :=
  match cs with
  | c1 :: c2 :: c3 :: c4 :: rest =>
    if lowerAscii c1 = 'h' && lowerAscii c2 = 't' &&
       lowerAscii c3 = 't' && lowerAscii c4 = 'p' then
      let afterS := match rest with
        | c5 :: rest' => if lowerAscii c5 = 's' then rest' else rest
        | [] => rest
      match afterS with
      | ':' :: '/' :: '/' :: tail =>
        -- `\S+` needs at least one non-whitespace character after `//`
        if tail.takeWhile (fun c => !isWsChar c) = [] then none
        else some (tail.dropWhile (fun c => !isWsChar c))
      | _ => none
    else none
  | _ => none

/-- `text.replace(/https?:\/\/\S+/gi, "")`: left-to-right global scan,
removing each URL match. -/
def stripUrlsAux (fuel : Nat) (cs : List Char) : List Char :=
  match fuel, cs with
  | 0, cs => cs
  | _, [] => []
  | fuel + 1, c :: cs' =>
    match matchUrlAt (c :: cs') with
    | some rest => stripUrlsAux fuel rest
    | none => c :: stripUrlsAux fuel cs'

def stripUrls (cs : List Char) : List Char := stripUrlsAux cs.length cs

/-- Match the regex `@[\w.]+` at the head of the list: `@` followed by one
or more word characters or dots.  Returns the remainder after the match. -/
def matchMentionAt (cs : List Char) : Option (List Char) :=
  match cs with
  | '@' :: rest =>
    let body := rest.takeWhile (fun c => isWordCharB c || c = '.')
    if body = [] then none
    else some (rest.dropWhile (fun c => isWordCharB c || c = '.'))
  | _ => none

/-- `.replace(/@[\w.]+/g, "")`: left-to-right global scan removing each
mention match. -/
def stripMentionsAux (fuel : Nat) (cs : List Char) : List Char :=
  match fuel, cs with
  | 0, cs => cs
  | _, [] => []
  | fuel + 1, c :: cs' =>
    match matchMentionAt (c :: cs') with
    | some rest => stripMentionsAux fuel rest
    | none => c :: stripMentionsAux fuel cs'

def stripMentions (cs : List Char) : List Char := stripMentionsAux cs.length cs

/-- `.replace(/[^\w\s#]/g, " ")` — every character that is neither a word
character, whitespace, nor `#` becomes a space (keeps `#` for hashtags). -/
def replaceNonWord (cs : List Char) : List Char :=
  cs.map (fun c => if isWordCharB c || isWsChar c || c = '#' then c else ' ')

/-- `.split(/\s+/)`: split on maximal runs of whitespace.  A leading or
trailing run produces an empty first or last piece, as in JavaScript. -/
def splitWsPlus : List Char → List (List Char)
  | [] => [[]]
  | c :: cs =>
    let r := splitWsPlus cs
    if isWsChar c then
      match cs with
      | c2 :: _ => if isWsChar c2 then r else [] :: r
      | [] => [] :: r
    else
      match r with
      | t :: ts => (c :: t) :: ts
      | [] => [[c]]

/-- `.map((word) => word.replace(/^#+/, ""))` — drop the leading run of `#`. -/
def stripLeadingHashes (cs : List Char) : List Char :=
  cs.dropWhile (fun c => c = '#')

/-- `/^\d+$/.test(word)` — the token is one or more decimal digits. -/
def isPureNumber (cs : List Char) : Bool :=
  !cs.isEmpty && cs.all isDigitB

/-- `MIN_WORD_LENGTH` (src/app/ingest/bluesky-transforms.ts:174). -/
def MIN_WORD_LENGTH : Nat := 3

/-- `STOP_WORDS` (src/app/ingest/bluesky-transforms.ts:9-171), in source
order (`Set` membership only is observable). -/
def STOP_WORDS : List String :=
  ["a", "an", "the",
   "and", "or", "but", "nor", "so", "yet",
   "in", "on", "at", "to", "for", "of", "with", "by", "from", "up", "down",
   "out", "off", "over", "under", "into", "through", "about", "between",
   "after", "before",
   "is", "are", "was", "were", "be", "been", "being", "have", "has", "had",
   "do", "does", "did", "will", "would", "could", "should", "may", "might",
   "must", "can", "get", "got", "go", "going", "went", "come", "came",
   "make", "made", "take", "took",
   "i", "me", "my", "mine", "myself", "you", "your", "yours", "yourself",
   "he", "him", "his", "himself", "she", "her", "hers", "herself",
   "it", "its", "itself", "we", "us", "our", "ours", "ourselves",
   "they", "them", "their", "theirs", "themselves",
   "this", "that", "these", "those",
   "what", "which", "who", "whom", "whose", "when", "where", "why", "how",
   "if", "then", "else", "than", "as", "just", "also", "only", "even",
   "more", "most", "less", "very", "too", "all", "any", "some", "no", "not",
   "yes", "now", "here", "there", "still", "well", "back", "way", "like",
   "know", "think", "see", "want", "say", "said", "really", "much", "one",
   "two", "new", "good", "first", "last", "been", "being",
   "https", "http", "www", "com"]

/-- Membership test for the stop-word set. -/
def isStopWord (w : String) : Bool := STOP_WORDS.contains w

/-- `extractWords` over `List Char` tokens: the full pipeline of
src/app/ingest/bluesky-transforms.ts:196-214. -/
def extractWordsL (text : List Char) : List (List Char) :=
  let withoutUrls := stripUrls text
  let withoutMentions := stripMentions withoutUrls
  (splitWsPlus (replaceNonWord (withoutMentions.map lowerAscii))).map
      stripLeadingHashes
    |>.filter (fun w => decide (MIN_WORD_LENGTH ≤ w.length))
    |>.filter (fun w => !isStopWord (String.mk w))
    |>.filter (fun w => !isPureNumber w)

/-- `extractWords : string → string[]`. -/
def extractWords (text : String) : List String :=
  (extractWordsL text.toList).map String.mk

example : extractWords "Check out https://x.com #AI is amazing!" =
    ["check", "amazing"] := by decide

/-! ### `truncateToInterval` (src/app/ingest/bluesky-transforms.ts:179-190)

A JS `Date` is read and rebuilt through its broken-down calendar components
(`getFullYear`, …, `getSeconds`, milliseconds), so the embedding represents
a timestamp as those components.  Chronological order on normalized
components is lexicographic. -/

/-- Broken-down timestamp, the components a JS `Date` exposes. -/
structure DateTime where
  year : Nat
  month : Nat
  day : Nat
  hour : Nat
  minute : Nat
  second : Nat
  ms : Nat
  deriving Repr, DecidableEq

/-- Chronological order on broken-down timestamps: lexicographic on
(year, month, day, hour, minute, second, ms). -/
def DateTime.le (a b : DateTime) : Prop :=
  a.year < b.year ∨ (a.year = b.year ∧
  (a.month < b.month ∨ (a.month = b.month ∧
  (a.day < b.day ∨ (a.day = b.day ∧
  (a.hour < b.hour ∨ (a.hour = b.hour ∧
  (a.minute < b.minute ∨ (a.minute = b.minute ∧
  (a.second < b.second ∨ (a.second = b.second ∧
    a.ms ≤ b.ms)))))))))))

/-- `truncateToInterval(date)`: `seconds = Math.floor(getSeconds()/10)*10`,
then `new Date(year, month, date, hours, minutes, seconds, 0)`. -/
def truncateToInterval (d : DateTime) : DateTime :=
  { d with second := d.second / 10 * 10, ms := 0 }

/-! ### Aggregation transform (src/app/ingest/bluesky-transforms.ts:220-254)

`BlueskyPost` and `WordOccurrence` per `src/app/ingest/bluesky-models.ts`.
The JS `Map` that counts word occurrences preserves insertion order and is
embedded as an association list: `set(w, (get(w) || 0) + 1)` bumps an
existing key in place or appends a new one. -/

structure BlueskyPost where
  postId : String
  text : String
  createdAt : DateTime
  authorDid : String
  deriving Repr, DecidableEq

structure WordOccurrence where
  intervalTimestamp : DateTime
  word : String
  count : Nat
  deriving Repr, DecidableEq

/-- One `Map.set(w, (Map.get(w) || 0) + k)` step on the insertion-ordered
association list (`k = 1` in the transform; the general weight is shared
with the SQL `GROUP BY … sum(…)` model below). -/
def addWeighted : List (String × Nat) → String → Nat → List (String × Nat)
  | [], w, k => [(w, k)]
  | (w', c) :: m, w, k =>
    if w' = w then (w', c + k) :: m else (w', c) :: addWeighted m w k

/-- The word-count `Map` built by the `for (const word of words)` loop. -/
def countWords (ws : List String) : List (String × Nat) :=
  ws.foldl (fun m w => addWeighted m w 1) []

/-- The transform body: extract words; if none, emit `[]`; otherwise emit
one `WordOccurrence` per distinct word carrying that word's in-event count,
all stamped with the post's truncated interval. -/
def transformPost (post : BlueskyPost) : List WordOccurrence :=
  let words := extractWords post.text
  if words = [] then []
  else
    let interval := truncateToInterval post.createdAt
    (countWords words).map (fun p =>
      { intervalTimestamp := interval, word := p.1, count := p.2 })

/-! ### Trends API (src/app/apis/trends.ts)

The handlers read the `WordTrends` materialized view; a view row is
`(word, interval, totalCount)`.  The `interval` / `from` / `to` timestamps
are compared by the store after `formatDateForCH` renders them as
`YYYY-MM-DD HH:MM:SS`, an order-preserving encoding, so they are embedded
as `Nat` compared directly.  The ClickHouse queries the handlers build are
embedded by their standard SQL meaning over the explicit row list:
`WHERE` = filter, `GROUP BY`+`sum` = `addWeighted` folding, `ORDER BY` = a
sorted rearrangement (insertion sort), `LIMIT` = take. -/

/-- A row of the `WordTrends` MV target table
(src/packages/moosestack-service/app/views/wordTrends.ts). -/
structure TrendRow where
  word : String
  interval : Nat
  totalCount : Nat
  deriving Repr, DecidableEq

/-- Insertion step of the sort used to embed SQL `ORDER BY`. -/
def insertBy (le : α → α → Bool) (a : α) : List α → List α
  | [] => [a]
  | b :: bs => if le a b then a :: b :: bs else b :: insertBy le a bs

/-- Insertion sort: a sorted rearrangement, the meaning of `ORDER BY`. -/
def sortBy (le : α → α → Bool) : List α → List α
  | [] => []
  | a :: as => insertBy le a (sortBy le as)

/-- `String.prototype.toLowerCase` on a whole string (ASCII range). -/
def jsToLower (s : String) : String := String.mk (s.toList.map lowerAscii)

/-- The `/search` (and per-word `/compare`) query:
`SELECT interval, totalCount FROM WordTrends WHERE word = w AND
interval >= from AND interval <= to ORDER BY interval ASC`. -/
def searchQuery (rows : List TrendRow) (w : String) (fromTs toTs : Nat) :
    List (Nat × Nat) :=
  (sortBy (fun a b => a.interval ≤ b.interval)
      (rows.filter (fun r => r.word = w && fromTs ≤ r.interval &&
        r.interval ≤ toTs))).map
    (fun r => (r.interval, r.totalCount))

/-- The JSON body of a successful `/search` response.  An `Option` field is
present in the JSON object iff it is `some`: the cache-hit body is
`{success, cached: true, data}`, the fresh body is
`{success, word, from, to, data}` (src/app/apis/trends.ts:76 and 96). -/
structure SearchResp where
  success : Bool
  cached : Option Bool := none
  word : Option String := none
  fromTs : Option Nat := none
  toTs : Option Nat := none
  data : List (Nat × Nat)
  deriving Repr, DecidableEq

/-- Result of a trends endpoint: HTTP 400 with `{error}` or 200 with a
body.  (The HTTP 500 store-failure path is outside the embedded state.) -/
inductive SearchResult where
  | badRequest (error : String)
  | ok (resp : SearchResp)
  deriving Repr, DecidableEq

/-- The JSON keys present in a `/search` response, in emission order. -/
def searchRespFields (r : SearchResp) : List String :=
  ["success"] ++
  (if r.cached.isSome then ["cached"] else []) ++
  (if r.word.isSome then ["word"] else []) ++
  (if r.fromTs.isSome then ["from"] else []) ++
  (if r.toTs.isSome then ["to"] else []) ++
  ["data"]

def SearchResult.fieldsOf : SearchResult → List String
  | .badRequest _ => ["error"]
  | .ok r => searchRespFields r

def SearchResult.dataOf : SearchResult → List (Nat × Nat)
  | .badRequest _ => []
  | .ok r => r.data

/-- `GET /search` (src/app/apis/trends.ts:54-104).  `wordParam` is
`req.query.word` (`none` = absent); `cache` is the value the response cache
holds under `trends:search:<word>:<from>:<to>` (`none` = miss or expired);
`rows` is the `WordTrends` store.  The handler lowercases the word, rejects
a falsy (absent or empty) word with 400, serves `{success, cached, data}`
on a hit, and otherwise queries the store, caches `data` for 30 s, and
serves `{success, word, from, to, data}`. -/
def searchHandler (wordParam : Option String) (fromTs toTs : Nat)
    (cache : Option (List (Nat × Nat))) (rows : List TrendRow) :
    SearchResult :=
  match wordParam with
  | none => .badRequest "word parameter is required"
  | some w0 =>
    let w := jsToLower w0
    if w = "" then .badRequest "word parameter is required"
    else
      match cache with
      | some d => .ok { success := true, cached := some true, data := d }
      | none =>
        .ok { success := true, word := some w, fromTs := some fromTs,
              toTs := some toTs, data := searchQuery rows w fromTs toTs }

/-- One `Map`-style grouping fold, shared by the transform (`key` = the
word itself, weight 1) and the SQL `GROUP BY word` + `sum(totalCount)`. -/
def groupWeighted (key : α → String) (wt : α → Nat) (xs : List α) :
    List (String × Nat) :=
  xs.foldl (fun m x => addWeighted m (key x) (wt x)) []

/-- Total weight an association list assigns to a key (the value stored
under `w`, read robustly as a filter-sum). -/
def valOf (m : List (String × Nat)) (w : String) : Nat :=
  ((m.filter (fun p => p.1 = w)).map (fun p => p.2)).sum

/-- The `/top` query: `SELECT word, sum(totalCount) as total FROM WordTrends
WHERE interval >= cutoff GROUP BY word ORDER BY total DESC LIMIT limit`. -/
def topQuery (rows : List TrendRow) (cutoff : Nat) (limit : Nat) :
    List (String × Nat) :=
  (sortBy (fun a b => b.2 ≤ a.2)
      (groupWeighted (fun r => r.word) (fun r => r.totalCount)
        (rows.filter (fun r => cutoff ≤ r.interval)))).take limit

/-- The JSON body of a `/top` response. -/
structure TopResp where
  success : Bool
  cached : Option Bool := none
  minutes : Option Nat := none
  limit : Option Nat := none
  data : List (String × Nat)
  deriving Repr, DecidableEq

/-- `GET /top` (src/app/apis/trends.ts:112-153).  `minutesP`/`limitP` model
`parseInt(req.query...) || default` with the defaults 5 and 20; `nowMs` is
`Date.now()`; `cutoff = now - minutes*60*1000`. -/
def topHandler (minutesP limitP : Option Nat) (nowMs : Nat)
    (cache : Option (List (String × Nat))) (rows : List TrendRow) : TopResp :=
  let minutes := minutesP.getD 5
  let limit := limitP.getD 20
  match cache with
  | some d => { success := true, cached := some true, data := d }
  | none =>
    let cutoff := nowMs - minutes * 60 * 1000
    { success := true, minutes := some minutes, limit := some limit,
      data := topQuery rows cutoff limit }

/-- `String.prototype.split(",")`: split on every comma. -/
def splitComma : List Char → List (List Char)
  | [] => [[]]
  | c :: cs =>
    if c = ',' then [] :: splitComma cs
    else
      match splitComma cs with
      | t :: ts => (c :: t) :: ts
      | [] => [[c]]

/-- `String.prototype.trim()`: strip whitespace from both ends. -/
def jsTrim (cs : List Char) : List Char :=
  ((cs.dropWhile isWsChar).reverse.dropWhile isWsChar).reverse

/-- The cleaned word list of `/compare`:
`wordsParam.split(",").map(w => w.trim().toLowerCase()).filter(w => w.length > 0)`. -/
def cleanWords (wordsParam : String) : List String :=
  (((splitComma wordsParam.toList).map
      (fun w => (jsTrim w).map lowerAscii)).filter
    (fun w => 0 < w.length)).map String.mk

/-- The JSON body of a successful `/compare` response: on a fresh query
`{success, words, from, to, data}`; on a cache hit the stored body is
spread back, plus `cached: true`. -/
structure CompareResp where
  success : Bool
  cached : Option Bool := none
  words : List String
  fromTs : Nat
  toTs : Nat
  data : List (String × List (Nat × Nat))
  deriving Repr, DecidableEq

inductive CompareResult where
  | badRequest (error : String)
  | ok (resp : CompareResp)
  deriving Repr, DecidableEq

def CompareResult.isBadRequest : CompareResult → Bool
  | .badRequest _ => true
  | .ok _ => false

/-- What the `/compare` cache stores: `{words, from, to, data}`. -/
structure CompareCached where
  words : List String
  fromTs : Nat
  toTs : Nat
  data : List (String × List (Nat × Nat))
  deriving Repr, DecidableEq

/-- `GET /compare` (src/app/apis/trends.ts:162-232).  Absent or empty
`words` parameter (JS falsy) → 400; zero cleaned words → 400; more than 10
→ 400; otherwise on a cache miss each word is queried independently with
the same per-word SQL as `/search` and the response maps each word to its
series. -/
def compareHandler (wordsParam : Option String) (fromTs toTs : Nat)
    (cache : Option CompareCached) (rows : List TrendRow) : CompareResult :=
  match wordsParam with
  | none => .badRequest "words parameter is required"
  | some s =>
    if s = "" then .badRequest "words parameter is required"
    else
      let words := cleanWords s
      if words.length = 0 then .badRequest "At least one word is required"
      else if 10 < words.length then .badRequest "Maximum 10 words allowed"
      else
        match cache with
        | some c =>
          .ok { success := true, cached := some true, words := c.words,
                fromTs := c.fromTs, toTs := c.toTs, data := c.data }
        | none =>
          .ok { success := true, words := words, fromTs := fromTs,
                toTs := toTs,
                data := words.map
                  (fun w => (w, searchQuery rows w fromTs toTs)) }

/-! ### Feed connector
(src/packages/moosestack-service/app/workflows/firehose.ts) -/

/-- `JETSTREAM_BASE_URL` (firehose.ts:7-8). -/
def JETSTREAM_BASE_URL : String :=
  "wss://jetstream2.us-east.bsky.network/subscribe?wantedCollections=app.bsky.feed.post"

/-- `loadCursor` (firehose.ts:35-51).  `stored` is the cursor-store value:
`none` covers both an absent key and an unreachable store (the `catch`
path); a present value is the decimal string `saveCursor` wrote, which
`parseInt(value, 10)` parses back to the same number, so it is embedded as
the `Nat` itself.  The fallback is 24 hours before `nowMs` (`Date.now()`),
converted to microseconds. -/
def loadCursor (stored : Option Nat) (nowMs : Nat) : Nat :=
  match stored with
  | some c => c
  | none => (nowMs - 24 * 60 * 60 * 1000) * 1000

/-- The subscription URL `connectAndProcess` builds (firehose.ts:160-164):
the base URL, with `&cursor=<currentCursor>` appended when the in-memory
cursor is non-zero. -/
def buildSubscriptionUrl (cursor : Nat) : String :=
  if 0 < cursor then JETSTREAM_BASE_URL ++ "&cursor=" ++ toString cursor
  else JETSTREAM_BASE_URL

/-- The cursor update of the `ws.on("message")` handler (firehose.ts:185-198):
`if (rawMsg.time_us) currentCursor = rawMsg.time_us`.  `timeUs` is the
message's `time_us` field — `none` when the field is missing or the message
does not parse as JSON (the silent `catch`), and JS truthiness makes a
present `0` fall through too. -/
def handleMsgCursor (cursor : Nat) (timeUs : Option Nat) : Nat :=
  match timeUs with
  | some t => if t ≠ 0 then t else cursor
  | none => cursor

/-- In-memory cursor after the handler processes a whole inbound sequence. -/
def runCursor (cursor : Nat) (msgs : List (Option Nat)) : Nat :=
  msgs.foldl handleMsgCursor cursor

/-- The `time_us` values that actually update the cursor (present and
truthy), in arrival order. -/
def truthyTimes (msgs : List (Option Nat)) : List Nat :=
  msgs.filterMap (fun m => match m with
    | some t => if t ≠ 0 then some t else none
    | none => none)

/-! ### Batch queue (firehose.ts:124-154)

`postBatch`, `batchTimer` and the flushed batches are the queue state.
`batchTimer` is the stored `setTimeout` handle; `pendingIds` tracks the
scheduled-but-not-yet-fired-or-cleared timers (so "at most one timer
outstanding" is a provable property, not a modelling assumption), and
`nextId` supplies fresh timer ids.  `flushed` records the batches handed to
`BlueskyPostPipeline.stream.send`. -/

def BATCH_SIZE : Nat := 100

structure QueueState where
  batch : List BlueskyPost
  handle : Option Nat
  pendingIds : List Nat
  nextId : Nat
  flushed : List (List BlueskyPost)
  deriving Repr, DecidableEq

/-- The initial state: empty batch, no timer. -/
def initQ : QueueState :=
  { batch := [], handle := none, pendingIds := [], nextId := 0, flushed := [] }

/-- `clearTimeout(h)`: cancels `h` iff it is still pending. -/
def clearTimeoutM (s : QueueState) (h : Nat) : QueueState :=
  { s with pendingIds := s.pendingIds.erase h }

/-- `flushBatch` (firehose.ts:124-141): clear the timer and null the
handle; if the batch is empty return; otherwise swap the batch out and
send it. -/
def flushBatchM (s : QueueState) : QueueState :=
  let s1 := match s.handle with
    | some h => { clearTimeoutM s h with handle := none }
    | none => s
  if s1.batch = [] then s1
  else { s1 with batch := [], flushed := s1.flushed ++ [s1.batch] }

/-- `queuePost` (firehose.ts:146-154): push; flush immediately at
`BATCH_SIZE`; otherwise arm the timer if none is armed. -/
def queuePostM (s : QueueState) (p : BlueskyPost) : QueueState :=
  let s1 := { s with batch := s.batch ++ [p] }
  if BATCH_SIZE ≤ s1.batch.length then flushBatchM s1
  else
    match s1.handle with
    | none =>
      { s1 with handle := some s1.nextId,
                pendingIds := s1.pendingIds ++ [s1.nextId],
                nextId := s1.nextId + 1 }
    | some _ => s1

/-- A pending timer elapses: it is consumed, then its callback `flushBatch`
runs (at that moment `batchTimer` still holds the fired timer's handle;
`clearTimeout` on it is a no-op).  No-op when no timer is pending. -/
def timerFireM (s : QueueState) : QueueState :=
  match s.pendingIds with
  | [] => s
  | h :: _ => flushBatchM { s with pendingIds := s.pendingIds.erase h }

/-- External events the queue reacts to: an enqueue from the message
handler, or a timer elapsing. -/
inductive QEvent where
  | enq (p : BlueskyPost)
  | fire
  deriving Repr

def stepQ (s : QueueState) : QEvent → QueueState
  | .enq p => queuePostM s p
  | .fire => timerFireM s

def runQ (s : QueueState) (es : List QEvent) : QueueState := es.foldl stepQ s

/-- The timer bookkeeping invariant: the pending timers are exactly the one
`batchTimer` refers to (none when `batchTimer` is null). -/
def QInv (s : QueueState) : Prop := s.pendingIds = s.handle.toList

/-- A concrete `WordTrends` store for the `/search` cache scenario. -/
def c1Rows : List TrendRow :=
  [⟨"rust", 10, 3⟩, ⟨"go", 10, 2⟩, ⟨"rust", 20, 5⟩]

/-- A concrete post for evaluating the aggregation transform. -/
def c4Post : BlueskyPost :=
  { postId := "at://did:plc:x/app.bsky.feed.post/1",
    text := "hello Hello world",
    createdAt := ⟨2024, 10, 30, 12, 0, 57, 123⟩,
    authorDid := "did:plc:x" }

/-- A concrete `WordTrends` store for the `/top` scenario. -/
def c6Rows : List TrendRow :=
  [⟨"rust", 400000, 3⟩, ⟨"go", 400000, 2⟩, ⟨"rust", 500000, 5⟩,
   ⟨"zig", 100, 9⟩, ⟨"go", 500000, 7⟩]

/-- A concrete post for the batch-queue scenarios. -/
def c8Post : BlueskyPost :=
  { postId := "at://did:plc:y/app.bsky.feed.post/2", text := "post",
    createdAt := ⟨2024, 10, 30, 12, 0, 0, 0⟩, authorDid := "did:plc:y" }

/-- A queue state one post short of the size threshold, with no timer. -/
def c8NearFull : QueueState :=
  { batch := List.replicate (BATCH_SIZE - 1) c8Post, handle := none,
    pendingIds := [], nextId := 0, flushed := [] }

/-! ## Theorems -/

/-- C2: `extractWords` on the exact input
`"Check out https://x.com #AI is amazing!"` returns exactly
`["check", "amazing"]`: the URL is stripped, `out`/`is` are stop words, and
`ai` (de-hashtagged) falls below the minimum length 3. -/
theorem claim_C2 :
    extractWords "Check out https://x.com #AI is amazing!" =
      ["check", "amazing"] := by decide

/-- C3: truncating a timestamp to the 10-second interval is idempotent, and
the truncated timestamp is chronologically at or before the original. -/
theorem claim_C3 (t : DateTime) :
    truncateToInterval (truncateToInterval t) = truncateToInterval t ∧
    DateTime.le (truncateToInterval t) t := by
  cases t
  refine ⟨?_, ?_⟩
  · simp [truncateToInterval]
  · simp [truncateToInterval, DateTime.le]
    omega

/-- C7: a positive persisted cursor `C` is loaded and carried verbatim in
the subscription URL; with no stored cursor (or an unreachable store) the
connector starts from `Date.now()` minus 24 hours, in microseconds — a
positive cursor strictly before "now" that the URL then carries. -/
theorem claim_C7 (C nowMs : Nat) :
    (0 < C → buildSubscriptionUrl (loadCursor (some C) nowMs) =
      JETSTREAM_BASE_URL ++ "&cursor=" ++ toString C) ∧
    (24 * 60 * 60 * 1000 < nowMs →
      loadCursor none nowMs = (nowMs - 24 * 60 * 60 * 1000) * 1000 ∧
      0 < loadCursor none nowMs ∧
      loadCursor none nowMs < nowMs * 1000 ∧
      buildSubscriptionUrl (loadCursor none nowMs) =
        JETSTREAM_BASE_URL ++ "&cursor=" ++
          toString (loadCursor none nowMs)) := by
  refine ⟨fun hC => ?_, fun hnow => ?_⟩
  · simp [loadCursor, buildSubscriptionUrl, hC]
  · have hpos : 0 < (nowMs - 24 * 60 * 60 * 1000) * 1000 := by omega
    refine ⟨rfl, hpos, ?_, by simp [buildSubscriptionUrl, loadCursor, hpos]⟩
    simp only [loadCursor]
    omega

theorem claim_C7_witness :
    (buildSubscriptionUrl (loadCursor (some 1730000000000000) 1730086400000) =
      JETSTREAM_BASE_URL ++ "&cursor=" ++ toString 1730000000000000) ∧
    (loadCursor none 1730086400000 =
        (1730086400000 - 24 * 60 * 60 * 1000) * 1000 ∧
      0 < loadCursor none 1730086400000 ∧
      loadCursor none 1730086400000 < 1730086400000 * 1000 ∧
      buildSubscriptionUrl (loadCursor none 1730086400000) =
        JETSTREAM_BASE_URL ++ "&cursor=" ++
          toString (loadCursor none 1730086400000)) :=
  ⟨(claim_C7 1730000000000000 1730086400000).1 (by decide),
   (claim_C7 1730000000000000 1730086400000).2 (by decide)⟩

/-- C9 counterexample: the message handler assigns `time_us` to the cursor
unconditionally, so a message whose `time_us` (50) is below the current
cursor (100) makes the cursor decrease — the claimed invariant "after
handling any message the cursor is ≥ its previous value" fails. -/
theorem claim_C9_counterexample : handleMsgCursor 100 (some 50) < 100 := by
  decide

/-- C9 (amended): handling a message sets the in-memory cursor to the
message's `time_us` whenever that field is present and truthy, and leaves
it unchanged otherwise; consequently the cursor is non-decreasing across a
message sequence provided the truthy `time_us` values arrive in
non-decreasing order starting at or above the current cursor (the feed's
per-connection delivery order) — out-of-order delivery can regress it. -/
theorem claim_C9 :
    (∀ (c t : Nat), t ≠ 0 → handleMsgCursor c (some t) = t) ∧
    (∀ (c : Nat) (msgs : List (Option Nat)),
      List.Chain' (· ≤ ·) (c :: truthyTimes msgs) →
      c ≤ runCursor c msgs) := by
  refine ⟨fun c t ht => by simp [handleMsgCursor, ht], fun c msgs h => ?_⟩
  induction msgs generalizing c with
  | nil => exact Nat.le_refl c
  | cons m ms ih =>
    match m with
    | none =>
      have : truthyTimes (none :: ms) = truthyTimes ms := rfl
      exact ih c (this ▸ h)
    | some t =>
      by_cases ht : t = 0
      · subst ht
        have heq : truthyTimes (some 0 :: ms) = truthyTimes ms := rfl
        have : runCursor c (some 0 :: ms) = runCursor c ms := by
          simp [runCursor, handleMsgCursor]
        rw [this]
        exact ih c (heq ▸ h)
      · have heq : truthyTimes (some t :: ms) = t :: truthyTimes ms := by
          simp [truthyTimes, ht]
        rw [heq] at h
        rw [List.chain'_cons] at h
        have hstep : runCursor c (some t :: ms) = runCursor t ms := by
          simp [runCursor, handleMsgCursor, ht]
        rw [hstep]
        exact Nat.le_trans h.1 (ih t h.2)

theorem claim_C9_witness :
    (handleMsgCursor 7 (some 42) = 42) ∧
    5 ≤ runCursor 5 [some 20, none, some 0, some 30] :=
  ⟨claim_C9.1 7 42 (by decide),
   claim_C9.2 5 [some 20, none, some 0, some 30] (by
    show List.Chain' (· ≤ ·) [5, 20, 30]
    simp [List.chain'_cons])⟩

/-- C5: `/compare` returns a 400-class error when the cleaned word list has
more than 10 entries, and a 400-class error when the `words` parameter is
missing, empty, or yields zero non-empty words; for 1 to 10 cleaned words
it queries each word independently and returns the word → series mapping. -/
theorem claim_C5 (fromTs toTs : Nat) (cache : Option CompareCached)
    (rows : List TrendRow) :
    (∀ wp, wp = none ∨ wp = some "" →
      (compareHandler wp fromTs toTs cache rows).isBadRequest = true) ∧
    (∀ s : String, cleanWords s = [] →
      (compareHandler (some s) fromTs toTs cache rows).isBadRequest = true) ∧
    (∀ s : String, 10 < (cleanWords s).length →
      (compareHandler (some s) fromTs toTs cache rows).isBadRequest = true) ∧
    (∀ s : String, 1 ≤ (cleanWords s).length → (cleanWords s).length ≤ 10 →
      compareHandler (some s) fromTs toTs none rows =
        .ok { success := true, words := cleanWords s, fromTs := fromTs,
              toTs := toTs,
              data := (cleanWords s).map
                (fun w => (w, searchQuery rows w fromTs toTs)) }) := by
  have hempty : cleanWords "" = [] := rfl
  refine ⟨?_, ?_, ?_, ?_⟩
  · rintro wp (rfl | rfl) <;> simp [compareHandler, CompareResult.isBadRequest]
  · intro s h
    by_cases hs : s = ""
    · subst hs; simp [compareHandler, CompareResult.isBadRequest]
    · simp [compareHandler, hs, h, CompareResult.isBadRequest]
  · intro s h
    have hs : ¬ s = "" := by
      intro he; subst he; rw [hempty] at h; simp at h
    have h0 : ¬ (cleanWords s).length = 0 := by omega
    simp [compareHandler, hs, h0, h, CompareResult.isBadRequest]
  · intro s h1 h2
    have hs : ¬ s = "" := by
      intro he; subst he; rw [hempty] at h1; simp at h1
    have h0 : ¬ (cleanWords s).length = 0 := by omega
    have hlt : ¬ 10 < (cleanWords s).length := by omega
    simp [compareHandler, hs, h0, hlt]

theorem claim_C5_witness :
    (compareHandler none 0 9 none []).isBadRequest = true ∧
    (compareHandler (some "") 0 9 none []).isBadRequest = true ∧
    (compareHandler (some " , ,") 0 9 none []).isBadRequest = true ∧
    (compareHandler (some "w1,w2,w3,w4,w5,w6,w7,w8,w9,w10,w11") 0 9 none
      []).isBadRequest = true ∧
    compareHandler (some "Abc, DEF") 0 9 none [] =
      .ok { success := true, words := cleanWords "Abc, DEF", fromTs := 0,
            toTs := 9,
            data := (cleanWords "Abc, DEF").map
              (fun w => (w, searchQuery [] w 0 9)) } :=
  ⟨(claim_C5 0 9 none []).1 none (Or.inl rfl),
   (claim_C5 0 9 none []).1 (some "") (Or.inr rfl),
   (claim_C5 0 9 none []).2.1 " , ," (by decide),
   (claim_C5 0 9 none []).2.2.1 "w1,w2,w3,w4,w5,w6,w7,w8,w9,w10,w11"
     (by decide),
   (claim_C5 0 9 none []).2.2.2 "Abc, DEF" (by decide) (by decide)⟩

/-- Lowercasing maps characters one-to-one, so a non-empty word stays
non-empty (and stays JS-truthy). -/
lemma jsToLower_ne_empty {s : String} (h : s ≠ "") : jsToLower s ≠ "" := by
  intro he
  apply h
  cases s with
  | mk data =>
    cases data with
    | nil => rfl
    | cons c cs => simp [jsToLower, String.ext_iff] at he

/-- C1 counterexample: with the cache holding exactly the `data` array a
fresh query stores (the in-TTL situation), the cache-hit response still
does not carry the same field set as the fresh response modulo the
`cached` flag: the fresh body echoes `word`, `from`, `to`
(src/app/apis/trends.ts:96) while the hit body is only
`{success, cached, data}` (trends.ts:76) — even though the `data` arrays
agree. -/
theorem claim_C1_counterexample :
    ¬ ((((searchHandler (some "rust") 0 100
            (some (searchQuery c1Rows "rust" 0 100)) c1Rows).fieldsOf).erase
          "cached" =
        (searchHandler (some "rust") 0 100 none c1Rows).fieldsOf) ∧
      (searchHandler (some "rust") 0 100
          (some (searchQuery c1Rows "rust" 0 100)) c1Rows).dataOf =
        (searchHandler (some "rust") 0 100 none c1Rows).dataOf) := by
  decide

/-- C1 (amended): within the TTL window — i.e. when the cache holds the
`data` array a fresh query for the same `(word, from, to)` stored — a
cache hit returns the same `data` array and the same `success` flag as a
fresh query, but the two bodies' field sets differ beyond the `cached`
flag: the hit is `{success, cached, data}` while the fresh response is
`{success, word, from, to, data}`. -/
theorem claim_C1 (w0 : String) (fromTs toTs : Nat) (rows : List TrendRow)
    (h : w0 ≠ "") :
    let w := jsToLower w0
    let hit := searchHandler (some w0) fromTs toTs
      (some (searchQuery rows w fromTs toTs)) rows
    let fresh := searchHandler (some w0) fromTs toTs none rows
    hit.dataOf = fresh.dataOf ∧
    hit.fieldsOf = ["success", "cached", "data"] ∧
    fresh.fieldsOf = ["success", "word", "from", "to", "data"] := by
  have hw : ¬ jsToLower w0 = "" := jsToLower_ne_empty h
  simp [searchHandler, hw, SearchResult.dataOf, SearchResult.fieldsOf,
    searchRespFields]

theorem claim_C1_witness :
    (searchHandler (some "Rust") 0 100
        (some (searchQuery c1Rows (jsToLower "Rust") 0 100)) c1Rows).dataOf =
      (searchHandler (some "Rust") 0 100 none c1Rows).dataOf ∧
    (searchHandler (some "Rust") 0 100
        (some (searchQuery c1Rows (jsToLower "Rust") 0 100))
        c1Rows).fieldsOf = ["success", "cached", "data"] ∧
    (searchHandler (some "Rust") 0 100 none c1Rows).fieldsOf =
      ["success", "word", "from", "to", "data"] :=
  claim_C1 "Rust" 0 100 c1Rows (by decide)

/-! Association-list lemmas for the `Map` grouping fold. -/

lemma valOf_cons (a : String) (b : Nat) (m : List (String × Nat))
    (w : String) :
    valOf ((a, b) :: m) w = (if a = w then b else 0) + valOf m w := by
  by_cases h : a = w <;> simp [valOf, h]

lemma valOf_eq_zero_of_not_mem (m : List (String × Nat)) (w : String)
    (h : w ∉ m.map Prod.fst) : valOf m w = 0 := by
  induction m with
  | nil => rfl
  | cons q m ih =>
    obtain ⟨a, b⟩ := q
    simp only [List.map_cons, List.mem_cons] at h
    push_neg at h
    rw [valOf_cons, if_neg (fun hh => h.1 hh.symm), ih h.2]

lemma addWeighted_map_fst (m : List (String × Nat)) (w : String) (k : Nat) :
    (addWeighted m w k).map Prod.fst =
      if w ∈ m.map Prod.fst then m.map Prod.fst
      else m.map Prod.fst ++ [w] := by
  induction m with
  | nil => simp [addWeighted]
  | cons q m ih =>
    obtain ⟨a, b⟩ := q
    by_cases ha : a = w
    · subst ha
      simp [addWeighted]
    · have ha' : ¬ w = a := fun hh => ha hh.symm
      by_cases hmem : w ∈ m.map Prod.fst <;>
        simp [addWeighted, ha, ha', hmem, ih]

lemma addWeighted_valOf (m : List (String × Nat)) (w : String) (k : Nat)
    (w' : String) :
    valOf (addWeighted m w k) w' =
      valOf m w' + (if w' = w then k else 0) := by
  induction m with
  | nil =>
    rw [show addWeighted [] w k = [(w, k)] from rfl, valOf_cons]
    by_cases h : w = w'
    · subst h; simp [valOf]
    · rw [if_neg h, if_neg (fun hh => h hh.symm)]
      simp [valOf]
  | cons q m ih =>
    obtain ⟨a, b⟩ := q
    by_cases ha : a = w
    · subst ha
      rw [show addWeighted ((a, b) :: m) a k = (a, b + k) :: m by
            simp [addWeighted],
          valOf_cons, valOf_cons]
      by_cases h2 : a = w'
      · rw [if_pos h2, if_pos h2, if_pos h2.symm]
        omega
      · rw [if_neg h2, if_neg h2, if_neg (fun hh => h2 hh.symm)]
        omega
    · rw [show addWeighted ((a, b) :: m) w k = (a, b) :: addWeighted m w k by
            simp [addWeighted, ha],
          valOf_cons, valOf_cons, ih]
      omega

lemma addWeighted_snd_sum (m : List (String × Nat)) (w : String) (k : Nat) :
    ((addWeighted m w k).map (fun p => p.2)).sum =
      (m.map (fun p => p.2)).sum + k := by
  induction m with
  | nil => simp [addWeighted]
  | cons q m ih =>
    obtain ⟨a, b⟩ := q
    by_cases ha : a = w <;> simp [addWeighted, ha, ih] <;> omega

lemma mem_pair_val (m : List (String × Nat))
    (hm : (m.map Prod.fst).Nodup) {p : String × Nat} (hp : p ∈ m) :
    p.2 = valOf m p.1 := by
  induction m with
  | nil => cases hp
  | cons q m ih =>
    obtain ⟨a, b⟩ := q
    rw [List.map_cons, List.nodup_cons] at hm
    rcases List.mem_cons.mp hp with rfl | hp'
    · rw [valOf_cons, valOf_eq_zero_of_not_mem m a hm.1]
      simp
    · have ha : ¬ a = p.1 := by
        intro he
        exact hm.1 (he ▸ List.mem_map.mpr ⟨p, hp', rfl⟩)
      rw [valOf_cons, if_neg ha, Nat.zero_add]
      exact ih hm.2 hp'

lemma foldl_addWeighted_mem_fst {α : Type} (key : α → String)
    (wt : α → Nat) :
    ∀ (xs : List α) (m : List (String × Nat)) (w : String),
      w ∈ (xs.foldl (fun m x => addWeighted m (key x) (wt x)) m).map
            Prod.fst ↔
        w ∈ m.map Prod.fst ∨ w ∈ xs.map key := by
  intro xs
  induction xs with
  | nil => simp
  | cons x xs ih =>
    intro m w
    rw [List.foldl_cons, ih, addWeighted_map_fst]
    by_cases hmem : key x ∈ m.map Prod.fst
    · simp only [hmem, if_true, List.map_cons, List.mem_cons]
      constructor
      · rintro (h | h)
        · exact Or.inl h
        · exact Or.inr (Or.inr h)
      · rintro (h | h | h)
        · exact Or.inl h
        · exact Or.inl (h ▸ hmem)
        · exact Or.inr h
    · simp only [hmem, if_false, List.map_cons, List.mem_cons,
        List.mem_append, List.mem_singleton]
      tauto

lemma foldl_addWeighted_nodup {α : Type} (key : α → String) (wt : α → Nat) :
    ∀ (xs : List α) (m : List (String × Nat)),
      (m.map Prod.fst).Nodup →
      ((xs.foldl (fun m x => addWeighted m (key x) (wt x)) m).map
        Prod.fst).Nodup := by
  intro xs
  induction xs with
  | nil => exact fun m h => h
  | cons x xs ih =>
    intro m hm
    rw [List.foldl_cons]
    apply ih
    rw [addWeighted_map_fst]
    by_cases hmem : key x ∈ m.map Prod.fst
    · simpa [hmem] using hm
    · simp [hmem, List.nodup_append, hm]

lemma foldl_addWeighted_valOf {α : Type} (key : α → String) (wt : α → Nat) :
    ∀ (xs : List α) (m : List (String × Nat)) (w : String),
      valOf (xs.foldl (fun m x => addWeighted m (key x) (wt x)) m) w =
        valOf m w + ((xs.filter (fun x => key x = w)).map wt).sum := by
  intro xs
  induction xs with
  | nil => simp
  | cons x xs ih =>
    intro m w
    rw [List.foldl_cons, ih, addWeighted_valOf]
    by_cases h : key x = w
    · rw [if_pos h.symm]
      simp [List.filter_cons, h]
      omega
    · rw [if_neg (fun hh => h hh.symm)]
      simp [List.filter_cons, h]

lemma foldl_addWeighted_sum {α : Type} (key : α → String) (wt : α → Nat) :
    ∀ (xs : List α) (m : List (String × Nat)),
      ((xs.foldl (fun m x => addWeighted m (key x) (wt x)) m).map
          (fun p => p.2)).sum =
        (m.map (fun p => p.2)).sum + (xs.map wt).sum := by
  intro xs
  induction xs with
  | nil => simp
  | cons x xs ih =>
    intro m
    rw [List.foldl_cons, ih, addWeighted_snd_sum]
    simp
    omega

lemma sum_map_one {β : Type} (l : List β) :
    (l.map (fun _ => (1 : Nat))).sum = l.length := by
  induction l with
  | nil => rfl
  | cons x l ih => simp [ih, Nat.add_comm]

lemma count_eq_filter_len (w : String) (l : List String) :
    l.count w = (l.filter (fun x => x = w)).length := by
  rw [List.count_eq_countP, List.countP_eq_length_filter]
  congr 1

/-- C4: for every post, the aggregation transform emits exactly one
`WordOccurrence` per distinct extracted token — emitted words are pairwise
distinct and are exactly the extracted tokens, each record's count is that
token's occurrence count within the event, the number of records equals
the number of distinct tokens, the counts sum to the total number of
extracted tokens — and an empty extraction emits zero records. -/
theorem claim_C4 (post : BlueskyPost) :
    (((transformPost post).map (fun o => o.word)).Nodup) ∧
    (∀ w, w ∈ (transformPost post).map (fun o => o.word) ↔
      w ∈ extractWords post.text) ∧
    (∀ o ∈ transformPost post,
      o.count = (extractWords post.text).count o.word) ∧
    (transformPost post).length = (extractWords post.text).dedup.length ∧
    ((transformPost post).map (fun o => o.count)).sum =
      (extractWords post.text).length ∧
    (extractWords post.text = [] → transformPost post = []) := by
  by_cases hws : extractWords post.text = []
  · refine ⟨?_, ?_, ?_, ?_, ?_, fun _ => ?_⟩ <;>
      simp [transformPost, hws]
  · have htp : transformPost post =
        (countWords (extractWords post.text)).map
          (fun p => { intervalTimestamp := truncateToInterval post.createdAt,
                      word := p.1, count := p.2 : WordOccurrence }) := by
      simp [transformPost, hws]
    set ws := extractWords post.text with hwsdef
    have hfst : (transformPost post).map (fun o => o.word) =
        (countWords ws).map Prod.fst := by
      rw [htp, List.map_map]
      rfl
    have hsnd : (transformPost post).map (fun o => o.count) =
        (countWords ws).map (fun p => p.2) := by
      rw [htp, List.map_map]
      rfl
    have hnodup : ((countWords ws).map Prod.fst).Nodup := by
      have h := foldl_addWeighted_nodup (fun w : String => w)
        (fun _ => 1) ws [] (by simp)
      simpa [countWords] using h
    have hmem : ∀ w, w ∈ (countWords ws).map Prod.fst ↔ w ∈ ws := by
      intro w
      have h := foldl_addWeighted_mem_fst (fun w : String => w)
        (fun _ => 1) ws [] w
      simpa [countWords] using h
    have hval : ∀ w, valOf (countWords ws) w = ws.count w := by
      intro w
      have h := foldl_addWeighted_valOf (fun w : String => w)
        (fun _ => 1) ws [] w
      rw [count_eq_filter_len, ← sum_map_one (ws.filter (fun x => x = w))]
      simpa [countWords, valOf] using h
    refine ⟨?_, ?_, ?_, ?_, ?_, fun h => absurd h hws⟩
    · rw [hfst]; exact hnodup
    · intro w; rw [hfst]; exact hmem w
    · intro o ho
      rw [htp] at ho
      obtain ⟨p, hp, rfl⟩ := List.mem_map.mp ho
      show p.2 = ws.count p.1
      rw [mem_pair_val (countWords ws) hnodup hp]
      exact hval p.1
    · have hlen1 : (transformPost post).length =
          ((countWords ws).map Prod.fst).length := by
        rw [htp]; simp
      have hperm : ((countWords ws).map Prod.fst).Perm ws.dedup := by
        rw [List.perm_ext_iff_of_nodup hnodup ws.nodup_dedup]
        intro a
        rw [hmem a, List.mem_dedup]
      rw [hlen1, hperm.length_eq]
    · rw [hsnd]
      have h := foldl_addWeighted_sum (fun w : String => w)
        (fun _ => 1) ws []
      rw [show ((countWords ws).map (fun p => p.2)).sum =
            (ws.map (fun _ => (1 : Nat))).sum by
          simpa [countWords] using h,
        sum_map_one]

theorem claim_C4_witness :
    ((transformPost c4Post).map (fun o => o.word)).Nodup ∧
    ("hello" ∈ (transformPost c4Post).map (fun o => o.word) ↔
      "hello" ∈ extractWords c4Post.text) ∧
    { intervalTimestamp := ⟨2024, 10, 30, 12, 0, 50, 0⟩, word := "hello",
      count := 2 : WordOccurrence }.count =
      (extractWords c4Post.text).count "hello" ∧
    ((transformPost c4Post).map (fun o => o.count)).sum =
      (extractWords c4Post.text).length :=
  ⟨(claim_C4 c4Post).1,
   (claim_C4 c4Post).2.1 "hello",
   (claim_C4 c4Post).2.2.1 _ (by decide),
   (claim_C4 c4Post).2.2.2.2.1⟩

/-! Insertion-sort lemmas: the sort is a rearrangement and, for a total
transitive comparator, pairwise ordered. -/

lemma insertBy_perm {α : Type} (le : α → α → Bool) (a : α) (l : List α) :
    (insertBy le a l).Perm (a :: l) := by
  induction l with
  | nil => simp [insertBy]
  | cons b bs ih =>
    by_cases h : le a b
    · simp [insertBy, h]
    · simp only [insertBy, h, if_false]
      exact List.Perm.trans (List.Perm.cons b ih) (List.Perm.swap a b bs)

lemma sortBy_perm {α : Type} (le : α → α → Bool) (l : List α) :
    (sortBy le l).Perm l := by
  induction l with
  | nil => simp [sortBy]
  | cons a as ih =>
    exact (insertBy_perm le a (sortBy le as)).trans (List.Perm.cons a ih)

lemma mem_insertBy {α : Type} (le : α → α → Bool) (a x : α) (l : List α) :
    x ∈ insertBy le a l ↔ x = a ∨ x ∈ l :=
  by rw [(insertBy_perm le a l).mem_iff, List.mem_cons]

lemma insertBy_pairwise {α : Type} (le : α → α → Bool)
    (htot : ∀ a b, le a b = true ∨ le b a = true)
    (htrans : ∀ a b c, le a b = true → le b c = true → le a c = true)
    (a : α) (l : List α) (hl : l.Pairwise (fun x y => le x y = true)) :
    (insertBy le a l).Pairwise (fun x y => le x y = true) := by
  induction l with
  | nil => simp [insertBy]
  | cons b bs ih =>
    rw [List.pairwise_cons] at hl
    by_cases h : le a b
    · rw [show insertBy le a (b :: bs) = a :: b :: bs by simp [insertBy, h]]
      rw [List.pairwise_cons]
      refine ⟨?_, List.pairwise_cons.mpr hl⟩
      intro y hy
      rcases List.mem_cons.mp hy with rfl | hy'
      · exact h
      · exact htrans a b y h (hl.1 y hy')
    · have hba : le b a = true := (htot a b).resolve_left (by simpa using h)
      rw [show insertBy le a (b :: bs) = b :: insertBy le a bs by
            simp [insertBy, h]]
      rw [List.pairwise_cons]
      refine ⟨?_, ih hl.2⟩
      intro y hy
      rcases (mem_insertBy le a y bs).mp hy with rfl | hy'
      · exact hba
      · exact hl.1 y hy'

lemma sortBy_pairwise {α : Type} (le : α → α → Bool)
    (htot : ∀ a b, le a b = true ∨ le b a = true)
    (htrans : ∀ a b c, le a b = true → le b c = true → le a c = true)
    (l : List α) :
    (sortBy le l).Pairwise (fun x y => le x y = true) := by
  induction l with
  | nil => simp [sortBy]
  | cons a as ih => exact insertBy_pairwise le htot htrans a (sortBy le as) ih

/-- C6: `/top` with both parameters at their defaults (minutes = 5,
limit = 20) returns at most 20 entries, the entries are non-increasing in
total count, and each entry's total is the sum of the stored counts of
that word inside the 5-minute window. -/
theorem claim_C6 (nowMs : Nat) (rows : List TrendRow) :
    ((topHandler none none nowMs none rows).data).length ≤ 20 ∧
    ((topHandler none none nowMs none rows).data).Pairwise
      (fun a b => b.2 ≤ a.2) ∧
    (∀ p ∈ (topHandler none none nowMs none rows).data,
      p.2 = (((rows.filter
          (fun r => nowMs - 5 * 60 * 1000 ≤ r.interval)).filter
            (fun r => r.word = p.1)).map (fun r => r.totalCount)).sum) := by
  have hdata : (topHandler none none nowMs none rows).data =
      topQuery rows (nowMs - 5 * 60 * 1000) 20 := rfl
  have htot : ∀ a b : String × Nat,
      (decide (b.2 ≤ a.2)) = true ∨ (decide (a.2 ≤ b.2)) = true := by
    intro a b
    rcases Nat.le_total b.2 a.2 with h | h
    · exact Or.inl (by simpa using h)
    · exact Or.inr (by simpa using h)
  have htrans : ∀ a b c : String × Nat,
      (decide (b.2 ≤ a.2)) = true → (decide (c.2 ≤ b.2)) = true →
      (decide (c.2 ≤ a.2)) = true := by
    intro a b c h1 h2
    simp only [decide_eq_true_eq] at h1 h2 ⊢
    omega
  refine ⟨?_, ?_, ?_⟩
  · rw [hdata]
    exact List.length_take_le 20 _
  · rw [hdata]
    have hp := sortBy_pairwise (fun a b : String × Nat => decide (b.2 ≤ a.2))
      htot htrans
      (groupWeighted (fun r => r.word) (fun r => r.totalCount)
        (rows.filter (fun r => nowMs - 5 * 60 * 1000 ≤ r.interval)))
    have := List.Pairwise.sublist (List.take_sublist 20 _) hp
    exact this.imp (fun h => by simpa using h)
  · intro p hp
    rw [hdata] at hp
    have hp1 : p ∈ sortBy (fun a b : String × Nat => decide (b.2 ≤ a.2))
        (groupWeighted (fun r => r.word) (fun r => r.totalCount)
          (rows.filter (fun r => nowMs - 5 * 60 * 1000 ≤ r.interval))) :=
      List.mem_of_mem_take hp
    have hp2 : p ∈ groupWeighted (fun r => r.word) (fun r => r.totalCount)
        (rows.filter (fun r => nowMs - 5 * 60 * 1000 ≤ r.interval)) :=
      (sortBy_perm _ _).mem_iff.mp hp1
    have hnodup : ((groupWeighted (fun r : TrendRow => r.word)
        (fun r => r.totalCount)
        (rows.filter (fun r => nowMs - 5 * 60 * 1000 ≤ r.interval))).map
          Prod.fst).Nodup :=
      foldl_addWeighted_nodup _ _ _ [] (by simp)
    rw [mem_pair_val _ hnodup hp2]
    have hv := foldl_addWeighted_valOf (fun r : TrendRow => r.word)
      (fun r => r.totalCount)
      (rows.filter (fun r => nowMs - 5 * 60 * 1000 ≤ r.interval)) [] p.1
    simpa [groupWeighted, valOf] using hv

theorem claim_C6_witness :
    ((topHandler none none 600000 none c6Rows).data).length ≤ 20 ∧
    ((topHandler none none 600000 none c6Rows).data).Pairwise
      (fun a b => b.2 ≤ a.2) ∧
    ("go", 9).2 = (((c6Rows.filter
        (fun r => 600000 - 5 * 60 * 1000 ≤ r.interval)).filter
          (fun r => r.word = ("go", 9).1)).map (fun r => r.totalCount)).sum :=
  ⟨(claim_C6 600000 c6Rows).1,
   (claim_C6 600000 c6Rows).2.1,
   (claim_C6 600000 c6Rows).2.2 ("go", 9) (by decide)⟩

/-! Batch-queue lemmas. -/

lemma flushBatchM_fields (s : QueueState) :
    (flushBatchM s).handle = none ∧
    (flushBatchM s).pendingIds =
      (match s.handle with
       | some h => s.pendingIds.erase h
       | none => s.pendingIds) ∧
    (flushBatchM s).batch = [] ∧
    (flushBatchM s).flushed =
      (if s.batch = [] then s.flushed else s.flushed ++ [s.batch]) := by
  cases hh : s.handle with
  | none =>
    by_cases hb : s.batch = [] <;> simp [flushBatchM, clearTimeoutM, hh, hb]
  | some hid =>
    by_cases hb : s.batch = [] <;> simp [flushBatchM, clearTimeoutM, hh, hb]

lemma qinv_flushBatchM (s : QueueState) (h : QInv s) : QInv (flushBatchM s) := by
  obtain ⟨h1, h2, _, _⟩ := flushBatchM_fields s
  unfold QInv at h ⊢
  rw [h1, h2]
  cases hh : s.handle with
  | none => simpa [hh] using h
  | some hid =>
    rw [hh] at h
    simp only [Option.toList] at h
    simp [h, hh]

lemma qinv_flushBatchM_of_pending_nil (s : QueueState)
    (h : s.pendingIds = []) : QInv (flushBatchM s) := by
  obtain ⟨g1, g2, _, _⟩ := flushBatchM_fields s
  unfold QInv
  rw [g1, g2]
  cases hh : s.handle <;> simp [hh, h, Option.toList]

lemma qinv_step (s : QueueState) (e : QEvent) (h : QInv s) :
    QInv (stepQ s e) := by
  cases e with
  | enq p =>
    show QInv (queuePostM s p)
    unfold queuePostM
    by_cases hsize : BATCH_SIZE ≤ (s.batch ++ [p]).length
    · simp only [hsize, if_true]
      exact qinv_flushBatchM _ (by simpa [QInv] using h)
    · simp only [hsize, if_false]
      cases hh : s.handle with
      | none =>
        unfold QInv at h ⊢
        rw [hh] at h
        simp only [Option.toList] at h
        simp [h]
      | some hid => simpa [QInv, hh] using h
  | fire =>
    show QInv (timerFireM s)
    unfold timerFireM
    cases hp : s.pendingIds with
    | nil => simpa using h
    | cons hd tl =>
      cases hh : s.handle with
      | none =>
        unfold QInv at h
        rw [hh, hp] at h
        simp [Option.toList] at h
      | some hid =>
        unfold QInv at h
        rw [hh, hp] at h
        simp only [Option.toList] at h
        injection h with h1 h2
        subst h1
        subst h2
        dsimp only
        apply qinv_flushBatchM_of_pending_nil
        simp [List.erase_cons_head]

lemma qinv_runQ (es : List QEvent) : ∀ s, QInv s → QInv (runQ s es) := by
  induction es with
  | nil => exact fun s h => h
  | cons e es ih => exact fun s h => ih (stepQ s e) (qinv_step s e h)

/-- C8: the batch queue flushes on whichever trigger fires first — the
enqueue that brings the batch to `BATCH_SIZE` (100) flushes immediately,
emptying the batch, emitting it, and leaving no timer pending, whatever
the timer state was; an enqueue that stays below the threshold does not
flush and leaves a timer armed; firing the armed timer flushes a non-empty
batch; and along every event sequence from the initial state at most one
flush timer is ever outstanding. -/
theorem claim_C8 :
    (∀ (s : QueueState) (p : BlueskyPost), QInv s →
      s.batch.length = BATCH_SIZE - 1 →
      (queuePostM s p).batch = [] ∧
      (queuePostM s p).flushed = s.flushed ++ [s.batch ++ [p]] ∧
      (queuePostM s p).pendingIds = []) ∧
    (∀ (s : QueueState) (p : BlueskyPost),
      s.batch.length + 1 < BATCH_SIZE →
      (queuePostM s p).batch = s.batch ++ [p] ∧
      (queuePostM s p).flushed = s.flushed ∧
      ((queuePostM s p).handle).isSome = true) ∧
    (∀ s : QueueState, QInv s → s.handle.isSome = true → s.batch ≠ [] →
      (timerFireM s).batch = [] ∧
      (timerFireM s).flushed = s.flushed ++ [s.batch]) ∧
    (∀ es : List QEvent, ((runQ initQ es).pendingIds).length ≤ 1) := by
  refine ⟨?_, ?_, ?_, ?_⟩
  · intro s p hinv hlen
    have hsize : BATCH_SIZE ≤ (s.batch ++ [p]).length := by
      simp [List.length_append, hlen, BATCH_SIZE]
    unfold queuePostM
    simp only [hsize, if_true]
    obtain ⟨_, h2, h3, h4⟩ :=
      flushBatchM_fields { s with batch := s.batch ++ [p] }
    refine ⟨h3, ?_, ?_⟩
    · rw [h4]
      have : ¬ (s.batch ++ [p] = []) := by simp
      simp [this]
    · rw [h2]
      unfold QInv at hinv
      cases hh : s.handle with
      | none => rw [hinv, hh]; simp [Option.toList]
      | some hid =>
        rw [hinv, hh]
        simp [Option.toList, List.erase_cons_head]
  · intro s p hlen
    have hsize : ¬ BATCH_SIZE ≤ (s.batch ++ [p]).length := by
      simp only [List.length_append, List.length_singleton]
      omega
    unfold queuePostM
    simp only [hsize, if_false]
    cases hh : s.handle with
    | none => simp [hh]
    | some hid => simp [hh]
  · intro s hinv hsome hbatch
    obtain ⟨hid, hh⟩ := Option.isSome_iff_exists.mp hsome
    unfold QInv at hinv
    rw [hh] at hinv
    simp only [Option.toList] at hinv
    unfold timerFireM
    rw [hinv]
    simp only [List.erase_cons_head]
    obtain ⟨_, _, h3, h4⟩ :=
      flushBatchM_fields { s with pendingIds := [] }
    refine ⟨h3, ?_⟩
    rw [h4]
    simp [hbatch]
  · intro es
    have hinv : QInv (runQ initQ es) :=
      qinv_runQ es initQ (by simp [QInv, initQ])
    rw [hinv]
    cases (runQ initQ es).handle <;> simp [Option.toList]

theorem claim_C8_witness :
    ((queuePostM c8NearFull c8Post).batch = [] ∧
      (queuePostM c8NearFull c8Post).flushed =
        c8NearFull.flushed ++ [c8NearFull.batch ++ [c8Post]] ∧
      (queuePostM c8NearFull c8Post).pendingIds = []) ∧
    ((queuePostM initQ c8Post).batch = initQ.batch ++ [c8Post] ∧
      (queuePostM initQ c8Post).flushed = initQ.flushed ∧
      ((queuePostM initQ c8Post).handle).isSome = true) ∧
    ((timerFireM (queuePostM initQ c8Post)).batch = [] ∧
      (timerFireM (queuePostM initQ c8Post)).flushed =
        (queuePostM initQ c8Post).flushed ++
          [(queuePostM initQ c8Post).batch]) ∧
    ((runQ initQ [.enq c8Post, .fire, .enq c8Post]).pendingIds).length ≤ 1 :=
  ⟨claim_C8.1 c8NearFull c8Post (by exact rfl) (by decide),
   claim_C8.2.1 initQ c8Post (by decide),
   claim_C8.2.2.1 (queuePostM initQ c8Post) (by exact rfl) (by decide)
     (by decide),
   claim_C8.2.2.2 [.enq c8Post, .fire, .enq c8Post]⟩

/-! Character-level lemmas for the extractor's normalization invariants. -/

lemma charOfNat_toNat_shift (n : Nat) (h1 : 65 ≤ n) (h2 : n ≤ 90) :
    (Char.ofNat (n + 32)).toNat = n + 32 := by
  have hv : (n + 32).isValidChar := Or.inl (by omega)
  simp [Char.ofNat, hv, Char.ofNatAux, Char.toNat, UInt32.toNat,
    BitVec.toNat_ofNatLt]

lemma isUpperAscii_lowerAscii (c : Char) :
    isUpperAscii (lowerAscii c) = false := by
  cases hB : isUpperAscii c with
  | false => simp [lowerAscii, hB]
  | true =>
    have h : 65 ≤ c.toNat ∧ c.toNat ≤ 90 := by
      have h0 := hB
      unfold isUpperAscii at h0
      rw [Bool.and_eq_true, decide_eq_true_eq, decide_eq_true_eq] at h0
      exact h0
    have hval : (Char.ofNat (c.toNat + 32)).toNat = c.toNat + 32 :=
      charOfNat_toNat_shift c.toNat h.1 h.2
    have hla : lowerAscii c = Char.ofNat (c.toNat + 32) := by
      unfold lowerAscii
      rw [if_pos hB]
    rw [hla]
    unfold isUpperAscii
    rw [hval]
    have hgt : ¬ (c.toNat + 32 ≤ 90) := by omega
    simp [hgt]

lemma mem_replaceNonWord_lower (s3 : List Char) (c : Char)
    (hc : c ∈ replaceNonWord (s3.map lowerAscii)) :
    isUpperAscii c = false := by
  unfold replaceNonWord at hc
  rw [List.mem_map] at hc
  obtain ⟨c0, hc0, rfl⟩ := hc
  rw [List.mem_map] at hc0
  obtain ⟨c1, _, rfl⟩ := hc0
  split
  · exact isUpperAscii_lowerAscii c1
  · decide

lemma splitWsPlus_cons (c : Char) (cs : List Char) :
    splitWsPlus (c :: cs) =
      if isWsChar c then
        (match cs with
         | c2 :: _ =>
           if isWsChar c2 then splitWsPlus cs else [] :: splitWsPlus cs
         | [] => [] :: splitWsPlus cs)
      else
        (match splitWsPlus cs with
         | t :: ts => (c :: t) :: ts
         | [] => [[c]]) := rfl

lemma splitWsPlus_chars :
    ∀ (cs : List Char) (t : List Char), t ∈ splitWsPlus cs →
      ∀ c ∈ t, c ∈ cs ∧ isWsChar c = false := by
  intro cs
  induction cs with
  | nil =>
    intro t ht c hc
    rcases List.mem_singleton.mp ht with rfl
    cases hc
  | cons a as ih =>
    intro t ht c hc
    rw [splitWsPlus_cons] at ht
    by_cases ha : isWsChar a
    · rw [if_pos ha] at ht
      cases as with
      | nil =>
        have ht2 : t ∈ ([] :: splitWsPlus ([] : List Char)) := ht
        rcases List.mem_cons.mp ht2 with rfl | ht'
        · cases hc
        · rcases List.mem_singleton.mp ht' with rfl
          cases hc
      | cons b bs =>
        have ht2 : t ∈ (if isWsChar b then splitWsPlus (b :: bs)
            else [] :: splitWsPlus (b :: bs)) := ht
        by_cases hb : isWsChar b
        · rw [if_pos hb] at ht2
          obtain ⟨h1, h2⟩ := ih t ht2 c hc
          exact ⟨List.mem_cons_of_mem a h1, h2⟩
        · rw [if_neg hb] at ht2
          rcases List.mem_cons.mp ht2 with rfl | ht'
          · cases hc
          · obtain ⟨h1, h2⟩ := ih t ht' c hc
            exact ⟨List.mem_cons_of_mem a h1, h2⟩
    · rw [if_neg ha] at ht
      cases hr : splitWsPlus as with
      | nil =>
        rw [hr] at ht
        have ht2 : t ∈ [[a]] := ht
        rcases List.mem_singleton.mp ht2 with rfl
        have hca : c = a := List.mem_singleton.mp hc
        rw [hca]
        exact ⟨List.mem_cons_self a as, by simpa using ha⟩
      | cons t0 ts =>
        rw [hr] at ht
        have ht2 : t ∈ (a :: t0) :: ts := ht
        rcases List.mem_cons.mp ht2 with rfl | ht'
        · rcases List.mem_cons.mp hc with hca | hc'
          · rw [hca]
            exact ⟨List.mem_cons_self a as, by simpa using ha⟩
          · obtain ⟨h1, h2⟩ :=
              ih t0 (by rw [hr]; exact List.mem_cons_self t0 ts) c hc'
            exact ⟨List.mem_cons_of_mem a h1, h2⟩
        · obtain ⟨h1, h2⟩ :=
            ih t (by rw [hr]; exact List.mem_cons_of_mem t0 ht') c hc
          exact ⟨List.mem_cons_of_mem a h1, h2⟩

lemma mem_dropWhile {p : Char → Bool} :
    ∀ (l : List Char) (c : Char), c ∈ l.dropWhile p → c ∈ l := by
  intro l
  induction l with
  | nil => intro c h; cases h
  | cons a as ih =>
    intro c h
    rw [List.dropWhile_cons] at h
    by_cases hp : p a
    · simp only [hp, if_true] at h
      exact List.mem_cons_of_mem a (ih c h)
    · simp only [hp, if_false] at h
      exact h

lemma head?_dropWhile {p : Char → Bool} :
    ∀ (l : List Char) (c : Char), (l.dropWhile p).head? = some c →
      p c = false := by
  intro l
  induction l with
  | nil => intro c h; simp at h
  | cons a as ih =>
    intro c h
    rw [List.dropWhile_cons] at h
    by_cases hp : p a
    · simp only [hp, if_true] at h
      exact ih c h
    · simp only [Bool.not_eq_true] at hp
      simp [hp] at h
      exact h ▸ hp

/-- C10: every token the extractor outputs satisfies all the normalization
invariants at once — no uppercase ASCII letter, no whitespace character,
length at least 3, no leading `#`, not a stop word, and not purely
numeric. -/
theorem claim_C10 (text : String) :
    ∀ w ∈ extractWords text,
      (∀ c ∈ w.toList, isUpperAscii c = false) ∧
      (∀ c ∈ w.toList, isWsChar c = false) ∧
      3 ≤ w.length ∧
      (∀ c, w.toList.head? = some c → c ≠ '#') ∧
      isStopWord w = false ∧
      isPureNumber w.toList = false := by
  intro w hw
  unfold extractWords at hw
  rw [List.mem_map] at hw
  obtain ⟨l, hl, rfl⟩ := hw
  unfold extractWordsL at hl
  rw [List.mem_filter] at hl
  obtain ⟨hl, hf3⟩ := hl
  rw [List.mem_filter] at hl
  obtain ⟨hl, hf2⟩ := hl
  rw [List.mem_filter] at hl
  obtain ⟨hl, hf1⟩ := hl
  rw [List.mem_map] at hl
  obtain ⟨t, ht, rfl⟩ := hl
  have hchars : ∀ c ∈ stripLeadingHashes t,
      c ∈ replaceNonWord
        ((stripMentions (stripUrls text.toList)).map lowerAscii) ∧
      isWsChar c = false := by
    intro c hc
    exact splitWsPlus_chars _ t ht c (mem_dropWhile t c hc)
  have htolist : (String.mk (stripLeadingHashes t)).toList =
      stripLeadingHashes t := rfl
  refine ⟨?_, ?_, ?_, ?_, ?_, ?_⟩
  · intro c hc
    rw [htolist] at hc
    exact mem_replaceNonWord_lower _ c (hchars c hc).1
  · intro c hc
    rw [htolist] at hc
    exact (hchars c hc).2
  · have := of_decide_eq_true hf1
    simpa [MIN_WORD_LENGTH, String.length] using this
  · intro c hc
    rw [htolist] at hc
    have := head?_dropWhile t c hc
    simpa using this
  · simpa using hf2
  · simpa using hf3

theorem claim_C10_witness :
    (∀ c ∈ ("check" : String).toList, isUpperAscii c = false) ∧
    (∀ c ∈ ("check" : String).toList, isWsChar c = false) ∧
    3 ≤ ("check" : String).length ∧
    (∀ c, ("check" : String).toList.head? = some c → c ≠ '#') ∧
    isStopWord "check" = false ∧
    isPureNumber ("check" : String).toList = false :=
  claim_C10 "Check out https://x.com #AI is amazing!" "check" (by decide)

end Moosesky
